import Mathlib

/-!
Verification of the address-space compaction core of the datAFLow
analysis scripts (`bintools/prelink_binary.py`, `bintools/common.py`).

The Python source is shallowly embedded: ELF program-header segments
become a `Segment` structure, memory mappings become pairs
`(start, size) : Int × Int`, the mutable retry loop of `prelink_libs`
becomes the fuel-indexed function `findSlot`, and Python exceptions
become `Except` error values.
-/

/-- Program-header segment type, as exposed by pyelftools
(`seg['p_type']`). Only `PT_LOAD` and `PT_INTERP` matter to the
scripts; everything else is collapsed into `PT_OTHER`. -/
inductive SegmentType where
  | PT_LOAD
  | PT_INTERP
  | PT_OTHER
deriving DecidableEq, Repr

/-- One program-header entry of an ELF file, with the fields the
scripts read: `p_type`, `p_vaddr`, `p_memsz`, `p_align`, and — for a
`PT_INTERP` segment — the interpreter path returned by
`seg.get_interp_name()`. -/
structure Segment where
  p_type : SegmentType
  p_vaddr : Int
  p_memsz : Int
  p_align : Int
  interp_name : String
deriving DecidableEq, Repr

/-- Overlap condition of `get_overlap` in `prelink_binary.py`, for a
candidate `mapping = (start, size)` against one occupied mapping
`m = (m_start, m_size)`:
`(start >= m_start and start < m_end) or
 (end > m_start and end <= m_end) or
 (start <= m_start and end >= m_end)`. -/
def overlapsB (mapping m : Int × Int) : Bool :=
  let start := mapping.1
  let stop := mapping.1 + mapping.2
  let m_start := m.1
  let m_stop := m.1 + m.2
  decide ((start ≥ m_start ∧ start < m_stop) ∨
          (stop > m_start ∧ stop ≤ m_stop) ∨
          (start ≤ m_start ∧ stop ≥ m_stop))

/-- Embedding of `get_overlap(mapping, other_mappings)`: returns the
*last* mapping of `other_mappings` that overlaps with `mapping`
(the Python loop iterates `other_mappings[::-1]` and returns the first
hit), or `none`. -/
def get_overlap (mapping : Int × Int) (other_mappings : List (Int × Int)) :
    Option (Int × Int) :=
  other_mappings.reverse.find? (fun m => overlapsB mapping m)

/-- Embedding of the per-library layout scan at the top of
`prelink_libs`: starting from `align, size = 0, 0`, every `PT_LOAD`
segment raises `align` to its `p_align` when larger, and *overwrites*
`size` with its `p_vaddr + p_memsz`.  Returns `(align, size)`. -/
def libLayout (segs : List Segment) : Int × Int :=
  segs.foldl
    (fun acc seg =>
      if seg.p_type = SegmentType.PT_LOAD then
        ((if seg.p_align > acc.1 then seg.p_align else acc.1),
         seg.p_vaddr + seg.p_memsz)
      else acc)
    (0, 0)

/-- Alignment rounding of the retry loop:
`if baseaddr % align: baseaddr -= baseaddr % align`.  Lean's `Int`
`%` is `Int.emod`, which agrees with Python's `%` for a positive
modulus (the only case the code reaches without crashing). -/
def alignDown (align baseaddr : Int) : Int :=
  if baseaddr % align ≠ 0 then baseaddr - baseaddr % align else baseaddr

/-- Embedding of the `while not found` retry loop of `prelink_libs`,
made total with a fuel parameter (the Python loop has no bound of its
own; `prelink_libs` below passes enough fuel for every terminating
run, see the termination theorem).  One iteration rounds `baseaddr`
down to a multiple of `align` and then either returns it, when no
occupied mapping overlaps, or retries just below the overlapping
mapping (`baseaddr = overlap[0] - size`). -/
def findSlot (fuel : Nat) (existing_mappings : List (Int × Int))
    (align size baseaddr : Int) : Option Int :=
  match fuel with
  | 0 => none
  | Nat.succ fuel =>
    match get_overlap (alignDown align baseaddr, size) existing_mappings with
    | some m => findSlot fuel existing_mappings align size (m.1 - size)
    | none => some (alignDown align baseaddr)

/-- Errors of the compaction algorithm.  `zeroDivisionError` models the
Python `ZeroDivisionError` raised by `baseaddr % align` when a library
has no `PT_LOAD` segment (so `align` stays `0`);
`invalidAddressError` models the `Invalid base address` exception;
`searchDiverged` models non-termination of the Python retry loop
(proved unreachable for positive sizes and alignment). -/
inductive PrelinkError where
  | zeroDivisionError
  | invalidAddressError (addr : Int)
  | searchDiverged
deriving DecidableEq, Repr

/-- One iteration of the `for lib in libs` loop of `prelink_libs`:
compute the library layout, move the cursor down by `size`, run the
retry loop, and fail when the found base address is negative.
Returns the committed mapping `(baseaddr, size)`. -/
def prelinkStep (existing_mappings : List (Int × Int))
    (segs : List Segment) (baseaddr : Int) :
    Except PrelinkError (Int × Int) :=
  if (libLayout segs).1 = 0 then Except.error PrelinkError.zeroDivisionError
  else
    match findSlot (existing_mappings.length + 1) existing_mappings
        (libLayout segs).1 (libLayout segs).2
        (baseaddr - (libLayout segs).2) with
    | none => Except.error PrelinkError.searchDiverged
    | some b =>
      if b < 0 then Except.error (PrelinkError.invalidAddressError b)
      else Except.ok (b, (libLayout segs).2)

/-- Embedding of `prelink_libs(libs, outdir, existing_mappings,
baseaddr)`.  The file-copying and the external `prelink` call are out
of scope; the returned list records, in processing order, the
`(baseaddr, size)` slot committed for each library.  The cursor
`baseaddr` carried to the next library is the committed base address,
exactly as in the Python code where the variable simply keeps its
value. -/
def prelink_libs (libs : List (List Segment))
    (existing_mappings : List (Int × Int)) (baseaddr : Int) :
    Except PrelinkError (List (Int × Int)) :=
  match libs with
  | [] => Except.ok []
  | segs :: rest =>
    match prelinkStep existing_mappings segs baseaddr with
    | Except.error e => Except.error e
    | Except.ok slot =>
      match prelink_libs rest existing_mappings slot.1 with
      | Except.error e => Except.error e
      | Except.ok plan => Except.ok (slot :: plan)

/-- Follows the spec's words for the overlap check (spec 4.3c): the
candidate range is checked "against the full set of already-occupied
ranges, which is the union of `existingMappings` ... and every range
already committed in the PlacementPlan so far".  `committed`
accumulates the plan built so far; everything else is as in
`prelink_libs`. -/
def prelink_libs_spec (libs : List (List Segment))
    (existing_mappings : List (Int × Int))
    (committed : List (Int × Int)) (baseaddr : Int) :
    Except PrelinkError (List (Int × Int)) :=
  match libs with
  | [] => Except.ok []
  | segs :: rest =>
    match prelinkStep (existing_mappings ++ committed) segs baseaddr with
    | Except.error e => Except.error e
    | Except.ok slot =>
      match prelink_libs_spec rest existing_mappings
          (committed ++ [slot]) slot.1 with
      | Except.error e => Except.error e
      | Except.ok plan => Except.ok (slot :: plan)

/-- Helper for the regular-expression models below: splits `hay` at the
*first* occurrence of `sep`, returning the parts before and after it,
or `none` when `sep` does not occur. -/
def splitFirst? (sep : List Char) : List Char → Option (List Char × List Char)
  | [] => if sep = [] then some ([], []) else none
  | c :: cs =>
    if sep.isPrefixOf (c :: cs) then some ([], (c :: cs).drop sep.length)
    else
      match splitFirst? sep cs with
      | some (pre, suf) => some (c :: pre, suf)
      | none => none

/-- Splits `hay` at the *last* occurrence of `sep` (the occurrence a
greedy leading `.*` commits to), via `splitFirst?` on the reversed
strings. -/
def splitLast? (sep hay : List Char) : Option (List Char × List Char) :=
  match splitFirst? sep.reverse hay.reverse with
  | none => none
  | some (sufR, preR) => some (preR.reverse, sufR.reverse)

/-- Substring test: does `needle` occur anywhere in `hay`? -/
def containsSeq (needle : List Char) : List Char → Bool
  | [] => decide (needle = [])
  | c :: cs => needle.isPrefixOf (c :: cs) || containsSeq needle cs

/-- Model of all occurrences: split `hay` on every occurrence of `sep`
(like Python's `str.split(sep)`), fuelled structurally; `prelink`'s
callers always pass `hay.length + 1`, which is enough fuel for a
non-empty `sep`. -/
def splitOnList (sep : List Char) : Nat → List Char → List (List Char)
  | 0, hay => [hay]
  | Nat.succ fuel, hay =>
    match splitFirst? sep hay with
    | none => [hay]
    | some (pre, suf) => pre :: splitOnList sep fuel suf

/-- Model of Python's `str.strip()`: remove leading and trailing
whitespace. -/
def stripChars (l : List Char) : List Char :=
  ((l.dropWhile Char.isWhitespace).reverse.dropWhile Char.isWhitespace).reverse

/-- Model of `LDD_NOT_FOUND_REGEX.search(line)` followed by
`m.group(1).strip()`, for `LDD_NOT_FOUND_REGEX = (.*.so.*) => not found`:
a match exists exactly when the line contains an occurrence of
`" => not found"` whose preceding text contains `"so"` at position at
least 1 (the group pattern is any text, one arbitrary character, the
two letters `so`, any text); the greedy group is the text before the
last such occurrence.  Since the group condition is closed under
taking shorter candidate groups being refuted, it suffices to test the
text before the last occurrence. -/
def ldd_not_found_match (line : String) : Option String :=
  let sep := " => not found".data
  match splitLast? sep line.data with
  | none => none
  | some (pre, _) =>
    if containsSeq "so".data (pre.drop 1) then
      some (String.mk (stripChars pre))
    else none

/-- Group extraction for `LDD_REGEX = .*.so.* => (/.*\.so[^ ]*)` once a
split position has been accepted: the group is the suffix up to the
last occurrence of the literal `".so"` (greedy inner `.*`), extended
by the following maximal run of non-space characters (`[^ ]*`). -/
def resolvedGroup (suf : List Char) : List Char :=
  match splitLast? ".so".data suf with
  | none => suf
  | some (body, rest) =>
    body ++ ".so".data ++ rest.takeWhile (fun c => decide (c ≠ ' '))

/-- Backtracking search for `LDD_REGEX.search(line)`: `parts` is the
line split on every `" => "`; the greedy `.*` before `" => "` tries
the split positions from the last to the first, accepting position `i`
when the text before it contains `"so"` at position at least 1 and the
text after it starts with `/` and contains the literal `".so"` after
that slash. -/
def lddDepSearch (parts : List (List Char)) : Nat → Option (List Char)
  | 0 => none
  | Nat.succ j =>
    let sep := " => ".data
    let pre := List.intercalate sep (parts.take (Nat.succ j))
    let suf := List.intercalate sep (parts.drop (Nat.succ j))
    if containsSeq "so".data (pre.drop 1) &&
        (match suf with
         | [] => false
         | c :: cs => decide (c = '/') && containsSeq ".so".data cs) then
      some (resolvedGroup suf)
    else lddDepSearch parts j

/-- Model of `LDD_REGEX.search(line)` followed by `m.group(1)`. -/
def ldd_resolved_match (line : String) : Option String :=
  let parts := splitOnList " => ".data (line.data.length + 1) line.data
  match lddDepSearch parts (parts.length - 1) with
  | some g => some (String.mk g)
  | none => none

/-- Error of `get_library_deps`: the
`Could not find ... - check LD_LIBRARY_PATH` exception, carrying the
stripped name of the unresolved library. -/
inductive DepsError where
  | unresolvedDependencyError (library_name : String)
deriving DecidableEq, Repr

/-- Embedding of the line loop of `get_library_deps` from `common.py`:
each line is first tested against `LDD_NOT_FOUND_REGEX` — a hit raises
immediately, discarding the accumulated `deps` — and otherwise
against `LDD_REGEX`, whose group is appended to `deps`. -/
def get_library_deps_lines : List String → List String →
    Except DepsError (List String)
  | [], deps => Except.ok deps.reverse
  | l :: ls, deps =>
    match ldd_not_found_match l with
    | some missing_lib =>
      Except.error (DepsError.unresolvedDependencyError missing_lib)
    | none =>
      match ldd_resolved_match l with
      | some p => get_library_deps_lines ls (p :: deps)
      | none => get_library_deps_lines ls deps

/-- Embedding of `get_library_deps`: the external `ldd` invocation is
out of scope, so the function takes the introspection output text,
splits it on newlines as `ldd.split("\n")` does, and runs the line
loop. -/
def get_library_deps (ldd_output : String) : Except DepsError (List String) :=
  let lines := (splitOnList "\n".data (ldd_output.data.length + 1)
    ldd_output.data).map String.mk
  get_library_deps_lines lines []

/-- Error of `get_binary_info`: the `Could not find interp in binary`
exception. -/
inductive BinInfoError where
  | missingInterpreterError
deriving DecidableEq, Repr

/-- Interpreter scan of `get_binary_info`: a `PT_INTERP` segment sets
the interpreter path (repeated assignment, so the last one wins). -/
def interpScan (segs : List Segment) : Option String :=
  segs.foldl
    (fun acc seg =>
      if seg.p_type = SegmentType.PT_INTERP then some seg.interp_name
      else acc)
    none

/-- Mapping collection of `get_binary_info`: every `PT_LOAD` segment
appends `(p_vaddr, p_memsz)` to `binary_mappings`, in file order. -/
def loadMappings (segs : List Segment) : List (Int × Int) :=
  segs.foldl
    (fun acc seg =>
      if seg.p_type = SegmentType.PT_LOAD then
        acc ++ [(seg.p_vaddr, seg.p_memsz)]
      else acc)
    []

/-- Embedding of `get_binary_info(prog)` from `common.py`: walk the
program headers (the single Python loop is split into the two
independent folds above); if no interpreter was found the function
raises, otherwise it returns the interpreter path and the `PT_LOAD`
mappings. -/
def get_binary_info (segs : List Segment) :
    Except BinInfoError (String × List (Int × Int)) :=
  match interpScan segs with
  | none => Except.error BinInfoError.missingInterpreterError
  | some i => Except.ok (i, loadMappings segs)

/-- Loadable-segment test, as a Bool for `List.filter`. -/
def isLoad (s : Segment) : Bool := decide (s.p_type = SegmentType.PT_LOAD)

/-- Span `p_vaddr + p_memsz` of one segment. -/
def segSpan (s : Segment) : Int := s.p_vaddr + s.p_memsz

/-- Follows the spec's words (data model, LibraryLayout):
`required_alignment` is "the maximum segment alignment across all
loadable segments". -/
def required_alignment_spec (segs : List Segment) : Int :=
  ((segs.filter isLoad).map Segment.p_align).foldl max 0

/-- Follows the spec's words (data model, LibraryLayout): `total_size`
is "the highest `(vaddr + memsz)` across all loadable segments". -/
def total_size_spec (segs : List Segment) : Int :=
  ((segs.filter isLoad).map segSpan).foldl max 0

/-- Span of the last loadable segment (`0` when there is none): what
the overwrite in `prelink_libs` actually computes for `size`. -/
def last_load_span (segs : List Segment) : Int :=
  ((segs.filter isLoad).map segSpan).getLastD 0

/-- Library whose two loadable segments have decreasing spans: the
first spans `[0, 3)`, the second `[1, 2)`. -/
def c2segs : List Segment :=
  [⟨SegmentType.PT_LOAD, 0, 3, 1, ""⟩, ⟨SegmentType.PT_LOAD, 1, 1, 1, ""⟩]

/-- Library with a single loadable segment of size `0x10` and
alignment `0x10`. -/
def tinyLib : List Segment := [⟨SegmentType.PT_LOAD, 0, 16, 16, ""⟩]

/-- Library with a single loadable segment of span `0` and alignment
`4`: a degenerate but well-typed input (the data model only demands
`size >= 0`). -/
def zeroLib : List Segment := [⟨SegmentType.PT_LOAD, 0, 0, 4, ""⟩]

/-- Library whose two loadable segments have nondecreasing spans
`[1, 3]`. -/
def c2sortedSegs : List Segment :=
  [⟨SegmentType.PT_LOAD, 0, 1, 1, ""⟩, ⟨SegmentType.PT_LOAD, 1, 2, 1, ""⟩]

/-- Library `libA` of the spec's end-to-end scenario: size `0x2000`,
alignment `0x1000`. -/
def libA : List Segment := [⟨SegmentType.PT_LOAD, 0, 0x2000, 0x1000, ""⟩]

/-- Library `libB` of the spec's end-to-end scenario: size `0x3000`,
alignment `0x1000`. -/
def libB : List Segment := [⟨SegmentType.PT_LOAD, 0, 0x3000, 0x1000, ""⟩]

/-! ### Lemmas about the overlap test -/

theorem overlapsB_iff (p m : Int × Int) :
    overlapsB p m = true ↔
      ((p.1 ≥ m.1 ∧ p.1 < m.1 + m.2) ∨
       (p.1 + p.2 > m.1 ∧ p.1 + p.2 ≤ m.1 + m.2) ∨
       (p.1 ≤ m.1 ∧ p.1 + p.2 ≥ m.1 + m.2)) := by
  simp [overlapsB]

theorem overlapsB_of_intersect (p m : Int × Int)
    (h1 : p.1 < m.1 + m.2) (h2 : m.1 < p.1 + p.2) :
    overlapsB p m = true := by
  rw [overlapsB_iff]
  omega

theorem disjoint_of_overlapsB_false (p m : Int × Int)
    (h : overlapsB p m = false) :
    p.1 + p.2 ≤ m.1 ∨ m.1 + m.2 ≤ p.1 := by
  by_contra hc
  push_neg at hc
  rw [← Bool.not_eq_true] at h
  exact h (overlapsB_of_intersect p m hc.2 hc.1)

theorem overlap_m_start_le (b s : Int) (m : Int × Int)
    (h : overlapsB (b, s) m = true) (hm : 0 ≤ m.2) (hs : 0 ≤ s) :
    m.1 ≤ b + s := by
  rw [overlapsB_iff] at h
  simp only at h
  omega

theorem overlap_m_start_lt (b s : Int) (m : Int × Int)
    (h : overlapsB (b, s) m = true) (hm : 0 < m.2) (hs : 0 < s) :
    m.1 < b + s := by
  rw [overlapsB_iff] at h
  simp only at h
  omega

theorem get_overlap_eq_none_iff (p : Int × Int) (l : List (Int × Int)) :
    get_overlap p l = none ↔ ∀ m ∈ l, overlapsB p m = false := by
  unfold get_overlap
  rw [List.find?_eq_none]
  constructor
  · intro h m hm
    have := h m (List.mem_reverse.mpr hm)
    simpa using this
  · intro h m hm
    have := h m (List.mem_reverse.mp hm)
    simpa using this

theorem get_overlap_some_mem (p m : Int × Int) (l : List (Int × Int))
    (h : get_overlap p l = some m) :
    m ∈ l ∧ overlapsB p m = true := by
  unfold get_overlap at h
  refine ⟨List.mem_reverse.mp (List.mem_of_find?_eq_some h), ?_⟩
  exact List.find?_some h

/-! ### Lemmas about alignment rounding -/

theorem alignDown_le (align b : Int) (h : 0 < align) :
    alignDown align b ≤ b := by
  unfold alignDown
  have := Int.emod_nonneg b (by omega : align ≠ 0)
  split <;> omega

theorem alignDown_emod (align b : Int) (h : 0 < align) :
    alignDown align b % align = 0 := by
  unfold alignDown
  split
  · rw [Int.sub_emod, Int.emod_emod_of_dvd b dvd_rfl]
    simp
  · omega

/-! ### Lemmas about the retry loop -/

theorem findSlot_some_props :
    ∀ (fuel : Nat) (e : List (Int × Int)) (al s b r : Int),
    findSlot fuel e al s b = some r → 0 < al →
    r % al = 0 ∧ get_overlap (r, s) e = none := by
  intro fuel
  induction fuel with
  | zero => intro e al s b r h _; simp [findSlot] at h
  | succ f ih =>
    intro e al s b r h hal
    rw [findSlot] at h
    cases hov : get_overlap (alignDown al b, s) e with
    | some m =>
      rw [hov] at h
      exact ih e al s (m.1 - s) r h hal
    | none =>
      rw [hov] at h
      simp only [Option.some.injEq] at h
      subst h
      exact ⟨alignDown_emod al b hal, hov⟩

theorem findSlot_le :
    ∀ (fuel : Nat) (e : List (Int × Int)) (al s b r : Int),
    findSlot fuel e al s b = some r → 0 < al → 0 ≤ s →
    (∀ m ∈ e, 0 ≤ m.2) → r ≤ b := by
  intro fuel
  induction fuel with
  | zero => intro e al s b r h _ _ _; simp [findSlot] at h
  | succ f ih =>
    intro e al s b r h hal hs hm
    rw [findSlot] at h
    have hadj := alignDown_le al b hal
    cases hov : get_overlap (alignDown al b, s) e with
    | some m =>
      rw [hov] at h
      have hmem := get_overlap_some_mem _ m e hov
      have hstart := overlap_m_start_le (alignDown al b) s m hmem.2
        (hm m hmem.1) hs
      have := ih e al s (m.1 - s) r h hal hs hm
      omega
    | none =>
      rw [hov] at h
      simp only [Option.some.injEq] at h
      omega

theorem findSlot_mono :
    ∀ (f1 f2 : Nat) (e : List (Int × Int)) (al s b r : Int),
    f1 ≤ f2 → findSlot f1 e al s b = some r →
    findSlot f2 e al s b = some r := by
  intro f1
  induction f1 with
  | zero => intro f2 e al s b r _ h; simp [findSlot] at h
  | succ f ih =>
    intro f2 e al s b r hle h
    obtain ⟨f2', rfl⟩ : ∃ f2', f2 = f2' + 1 := ⟨f2 - 1, by omega⟩
    rw [findSlot] at h ⊢
    cases hov : get_overlap (alignDown al b, s) e with
    | some m =>
      rw [hov] at h
      exact ih f2' e al s (m.1 - s) r (by omega) h
    | none =>
      rw [hov] at h
      exact h

theorem length_filter_lt {α : Type} (p q : α → Bool)
    (hpq : ∀ x, p x = true → q x = true) :
    ∀ (l : List α) (y : α), y ∈ l → q y = true → p y = false →
    (l.filter p).length < (l.filter q).length := by
  intro l
  induction l with
  | nil => intro y hy _ _; simp at hy
  | cons a t ih =>
    intro y hy hqy hpy
    have hle := (List.monotone_filter_right t hpq).length_le
    rcases List.mem_cons.mp hy with rfl | hyt
    · rw [List.filter_cons_of_neg (by simp [hpy]),
        List.filter_cons_of_pos (by simp [hqy])]
      simp only [List.length_cons]
      omega
    · have hlt := ih y hyt hqy hpy
      by_cases hpa : p a = true
      · rw [List.filter_cons_of_pos (by simp [hpa]),
          List.filter_cons_of_pos (by simp [hpq a hpa])]
        simpa using Nat.succ_lt_succ hlt
      · by_cases hqa : q a = true
        · rw [List.filter_cons_of_neg (by simp [hpa]),
            List.filter_cons_of_pos (by simp [hqa])]
          simp only [List.length_cons]
          omega
        · rw [List.filter_cons_of_neg (by simp [hpa]),
            List.filter_cons_of_neg (by simp [hqa])]
          exact hlt

theorem findSlot_isSome :
    ∀ (fuel : Nat) (e : List (Int × Int)) (al s b : Int),
    (e.filter (fun x => decide (x.1 < b + s))).length < fuel →
    0 < al → 0 < s → (∀ m ∈ e, 0 < m.2) →
    ∃ r, findSlot fuel e al s b = some r := by
  intro fuel
  induction fuel with
  | zero => intro e al s b hmu _ _ _; omega
  | succ f ih =>
    intro e al s b hmu hal hs hm
    cases hov : get_overlap (alignDown al b, s) e with
    | none => exact ⟨alignDown al b, by rw [findSlot, hov]⟩
    | some m =>
      have hmem := get_overlap_some_mem _ m e hov
      have hm2 := hm m hmem.1
      have hlt : m.1 < alignDown al b + s :=
        overlap_m_start_lt _ s m hmem.2 hm2 hs
      have hadj := alignDown_le al b hal
      have hms : m.1 - s + s = m.1 := by omega
      have hless : (e.filter (fun x => decide (x.1 < m.1 - s + s))).length < f := by
        simp only [hms]
        have := length_filter_lt (fun x : Int × Int => decide (x.1 < m.1))
          (fun x : Int × Int => decide (x.1 < b + s))
          (fun x hx => by simp only [decide_eq_true_eq] at hx ⊢; omega)
          e m hmem.1 (by simp only [decide_eq_true_eq]; omega) (by simp)
        omega
      obtain ⟨r, hr⟩ := ih e al s (m.1 - s) hless hal hs hm
      refine ⟨r, ?_⟩
      rw [findSlot, hov]
      exact hr

theorem overlapsB_false_of_below (b s : Int) (p : Int × Int)
    (hs : 0 < s) (hp : 0 < p.2) (h : b + s ≤ p.1) :
    overlapsB (b, s) p = false := by
  rw [← Bool.not_eq_true, overlapsB_iff]
  simp only
  omega

theorem find?_append_of_none {α : Type} (l1 l2 : List α) (p : α → Bool)
    (h : ∀ x ∈ l1, p x = false) :
    (l1 ++ l2).find? p = l2.find? p := by
  induction l1 with
  | nil => rfl
  | cons a t ih =>
    have ha := h a (List.mem_cons_self a t)
    rw [List.cons_append, List.find?_cons_of_neg _ (by simp [ha])]
    exact ih fun x hx => h x (List.mem_cons_of_mem a hx)

theorem get_overlap_append_of_above (c : Int × Int) (e P : List (Int × Int))
    (h : ∀ p ∈ P, overlapsB c p = false) :
    get_overlap c (e ++ P) = get_overlap c e := by
  unfold get_overlap
  rw [List.reverse_append]
  exact find?_append_of_none _ _ _ (fun x hx => h x (List.mem_reverse.mp hx))

theorem findSlot_append_eq (P : List (Int × Int)) (cur : Int) :
    ∀ (fuel : Nat) (e : List (Int × Int)) (al s b : Int),
    0 < al → 0 < s → (∀ m ∈ e, 0 ≤ m.2) →
    (∀ p ∈ P, cur ≤ p.1 ∧ 0 < p.2) → b + s ≤ cur →
    findSlot fuel (e ++ P) al s b = findSlot fuel e al s b := by
  intro fuel
  induction fuel with
  | zero => intro e al s b _ _ _ _ _; rfl
  | succ f ih =>
    intro e al s b hal hs hm hP hbC
    have hadj := alignDown_le al b hal
    have hnoP : ∀ p ∈ P, overlapsB (alignDown al b, s) p = false := by
      intro p hp
      exact overlapsB_false_of_below _ s p hs (hP p hp).2
        (by have := (hP p hp).1; omega)
    rw [findSlot, findSlot, get_overlap_append_of_above _ e P hnoP]
    cases hov : get_overlap (alignDown al b, s) e with
    | none => rfl
    | some m =>
      have hmem := get_overlap_some_mem _ m e hov
      have hstart := overlap_m_start_le (alignDown al b) s m hmem.2
        (hm m hmem.1) (le_of_lt hs)
      exact ih e al s (m.1 - s) hal hs hm hP (by omega)

theorem libLayout_fst_nonneg (segs : List Segment) : 0 ≤ (libLayout segs).1 := by
  unfold libLayout
  suffices h : ∀ (l : List Segment) (acc : Int × Int), 0 ≤ acc.1 →
      0 ≤ (l.foldl
        (fun acc seg =>
          if seg.p_type = SegmentType.PT_LOAD then
            ((if seg.p_align > acc.1 then seg.p_align else acc.1),
             seg.p_vaddr + seg.p_memsz)
          else acc)
        acc).1 by
    exact h segs (0, 0) le_rfl
  intro l
  induction l with
  | nil => intro acc h; exact h
  | cons s t ih =>
    intro acc h
    rw [List.foldl_cons]
    by_cases hl : s.p_type = SegmentType.PT_LOAD
    · simp only [hl, if_true]
      apply ih
      simp only
      split <;> omega
    · simp only [hl, if_false]
      exact ih acc h

/-! ### Lemmas about one compaction step -/

theorem prelinkStep_ok_elim (e : List (Int × Int)) (segs : List Segment)
    (b : Int) (slot : Int × Int)
    (h : prelinkStep e segs b = Except.ok slot) :
    0 < (libLayout segs).1 ∧ slot.2 = (libLayout segs).2 ∧ 0 ≤ slot.1 ∧
    findSlot (e.length + 1) e (libLayout segs).1 (libLayout segs).2
      (b - (libLayout segs).2) = some slot.1 := by
  rw [prelinkStep] at h
  by_cases hz : (libLayout segs).1 = 0
  · rw [if_pos hz] at h
    simp at h
  · rw [if_neg hz] at h
    have hal : 0 < (libLayout segs).1 :=
      lt_of_le_of_ne (libLayout_fst_nonneg segs) (Ne.symm hz)
    cases hov : findSlot (e.length + 1) e (libLayout segs).1
        (libLayout segs).2 (b - (libLayout segs).2) with
    | none => rw [hov] at h; simp at h
    | some r =>
      rw [hov] at h
      have h2 : (if r < 0 then Except.error (PrelinkError.invalidAddressError r)
          else Except.ok (r, (libLayout segs).2)) = Except.ok slot := h
      by_cases hneg : r < 0
      · rw [if_pos hneg] at h2; simp at h2
      · rw [if_neg hneg] at h2
        simp only [Except.ok.injEq] at h2
        refine ⟨hal, ?_, ?_, ?_⟩
        · rw [← h2]
        · rw [← h2]; exact Int.not_lt.mp hneg
        · rw [← h2]

theorem prelink_ok_facts :
    ∀ (libs : List (List Segment)) (e : List (Int × Int)) (b : Int)
      (plan : List (Int × Int)),
    prelink_libs libs e b = Except.ok plan →
    (∀ m ∈ e, 0 ≤ m.2) → (∀ lib ∈ libs, 0 ≤ (libLayout lib).2) →
    List.Forall₂ (fun lib p => p.2 = (libLayout lib).2 ∧
      p.1 % (libLayout lib).1 = 0) libs plan
    ∧ (∀ p ∈ plan,
        p.1 + p.2 ≤ b ∧ 0 ≤ p.2 ∧ get_overlap (p.1, p.2) e = none)
    ∧ plan.Pairwise (fun p q => q.1 + q.2 ≤ p.1) := by
  intro libs
  induction libs with
  | nil =>
    intro e b plan h _ _
    rw [prelink_libs] at h
    simp only [Except.ok.injEq] at h
    subst h
    exact ⟨List.Forall₂.nil, by simp, List.Pairwise.nil⟩
  | cons segs rest ih =>
    intro e b plan h hm hsz
    rw [prelink_libs] at h
    cases hstep : prelinkStep e segs b with
    | error err => rw [hstep] at h; simp at h
    | ok slot =>
      rw [hstep] at h
      have h2 : (match prelink_libs rest e slot.1 with
        | Except.error err => Except.error err
        | Except.ok tail => Except.ok (slot :: tail)) = Except.ok plan := h
      cases hrest : prelink_libs rest e slot.1 with
      | error err => rw [hrest] at h2; simp at h2
      | ok plan' =>
        rw [hrest] at h2
        simp only [Except.ok.injEq] at h2
        subst h2
        obtain ⟨hal, hs2, hs1, hfind⟩ := prelinkStep_ok_elim e segs b slot hstep
        have hszh : 0 ≤ (libLayout segs).2 := hsz segs (List.mem_cons_self _ _)
        have hprops := findSlot_some_props _ e _ _ _ _ hfind hal
        have hle := findSlot_le _ e _ _ _ _ hfind hal hszh hm
        obtain ⟨ihF, ihB, ihP⟩ := ih e slot.1 plan' hrest hm
          (fun lib hl => hsz lib (List.mem_cons_of_mem _ hl))
        refine ⟨?_, ?_, ?_⟩
        · exact List.Forall₂.cons ⟨hs2, hprops.1⟩ ihF
        · intro p hp
          rcases List.mem_cons.mp hp with rfl | hp'
          · exact ⟨by omega, by omega, by rw [hs2]; exact hprops.2⟩
          · obtain ⟨h1, h2, h3⟩ := ihB p hp'
            exact ⟨by omega, h2, h3⟩
        · refine List.Pairwise.cons ?_ ihP
          intro q hq
          exact (ihB q hq).1

theorem prelink_agrees_aux (e : List (Int × Int)) (hm : ∀ m ∈ e, 0 < m.2) :
    ∀ (libs : List (List Segment)) (committed : List (Int × Int)) (b : Int),
    (∀ lib ∈ libs, 0 < (libLayout lib).2) →
    (∀ p ∈ committed, b ≤ p.1 ∧ 0 < p.2) →
    prelink_libs_spec libs e committed b = prelink_libs libs e b := by
  intro libs
  induction libs with
  | nil => intro committed b _ _; rfl
  | cons segs rest ih =>
    intro committed b hsz hcom
    rw [prelink_libs_spec, prelink_libs]
    have hszh : 0 < (libLayout segs).2 := hsz segs (List.mem_cons_self _ _)
    have hstep : prelinkStep (e ++ committed) segs b = prelinkStep e segs b := by
      rw [prelinkStep, prelinkStep]
      by_cases hz : (libLayout segs).1 = 0
      · rw [if_pos hz, if_pos hz]
      · rw [if_neg hz, if_neg hz]
        have hal : 0 < (libLayout segs).1 :=
          lt_of_le_of_ne (libLayout_fst_nonneg segs) (Ne.symm hz)
        have hbound := List.length_filter_le
          (fun x : Int × Int =>
            decide (x.1 < b - (libLayout segs).2 + (libLayout segs).2)) e
        obtain ⟨r, hr⟩ := findSlot_isSome (e.length + 1) e (libLayout segs).1
          (libLayout segs).2 (b - (libLayout segs).2) (by omega) hal hszh hm
        have hmono := findSlot_mono (e.length + 1) ((e ++ committed).length + 1)
          e (libLayout segs).1 (libLayout segs).2 (b - (libLayout segs).2) r
          (by simp) hr
        have happ := findSlot_append_eq committed b ((e ++ committed).length + 1)
          e (libLayout segs).1 (libLayout segs).2 (b - (libLayout segs).2)
          hal hszh (fun m hmm => le_of_lt (hm m hmm)) hcom (by omega)
        rw [happ, hmono, hr]
    rw [hstep]
    cases hres : prelinkStep e segs b with
    | error err => rfl
    | ok slot =>
      obtain ⟨hal, hs2, hs1, hfind⟩ := prelinkStep_ok_elim e segs b slot hres
      have hle := findSlot_le _ e _ _ _ _ hfind hal (le_of_lt hszh)
        (fun m hmm => le_of_lt (hm m hmm))
      have hcom' : ∀ p ∈ committed ++ [slot], slot.1 ≤ p.1 ∧ 0 < p.2 := by
        intro p hp
        rcases List.mem_append.mp hp with hp' | hp'
        · have hc := hcom p hp'
          exact ⟨by omega, hc.2⟩
        · have hps : p = slot := by simpa using hp'
          subst hps
          exact ⟨le_rfl, by rw [hs2]; exact hszh⟩
      have hrec := ih (committed ++ [slot]) slot.1
        (fun lib hl => hsz lib (List.mem_cons_of_mem _ hl)) hcom'
      show (match prelink_libs_spec rest e (committed ++ [slot]) slot.1 with
        | Except.error err => Except.error err
        | Except.ok plan => Except.ok (slot :: plan)) =
        (match prelink_libs rest e slot.1 with
        | Except.error err => Except.error err
        | Except.ok plan => Except.ok (slot :: plan))
      rw [hrec]

/-! ### Lemmas about the layout scan -/

theorem libLayout_decomp : ∀ (segs : List Segment) (a0 s0 : Int),
    segs.foldl
      (fun acc seg =>
        if seg.p_type = SegmentType.PT_LOAD then
          ((if seg.p_align > acc.1 then seg.p_align else acc.1),
           seg.p_vaddr + seg.p_memsz)
        else acc)
      (a0, s0)
    = (((segs.filter isLoad).map Segment.p_align).foldl
        (fun a x => if x > a then x else a) a0,
       ((segs.filter isLoad).map segSpan).foldl (fun _ x => x) s0) := by
  intro segs
  induction segs with
  | nil => intro a0 s0; rfl
  | cons s t ih =>
    intro a0 s0
    by_cases hl : s.p_type = SegmentType.PT_LOAD
    · rw [List.foldl_cons, List.filter_cons_of_pos (by simp [isLoad, hl])]
      simp only [hl, if_true, List.map_cons, List.foldl_cons]
      exact ih _ _
    · rw [List.foldl_cons, List.filter_cons_of_neg (by simp [isLoad, hl])]
      simp only [hl, if_false]
      exact ih a0 s0

theorem foldl_ifmax_eq_max (l : List Int) (a : Int) :
    l.foldl (fun a x => if x > a then x else a) a = l.foldl max a := by
  have hf : (fun (a x : Int) => if x > a then x else a) =
      fun (a x : Int) => max a x := by
    funext a x
    rw [max_def]
    split_ifs <;> omega
  rw [hf]

theorem foldl_overwrite_eq_getLastD : ∀ (l : List Int) (d : Int),
    l.foldl (fun _ x => x) d = l.getLastD d := by
  intro l
  induction l with
  | nil => intro d; rfl
  | cons a t ih =>
    intro d
    rw [List.foldl_cons, List.getLastD_cons]
    exact ih a

theorem sorted_getLastD_eq_foldl_max :
    ∀ (t : List Int) (a : Int), t.Sorted (· ≤ ·) → (∀ x ∈ t, a ≤ x) →
    t.getLastD a = t.foldl max a := by
  intro t
  induction t with
  | nil => intro a _ _; rfl
  | cons x u ih =>
    intro a hs hx
    rw [List.getLastD_cons, List.foldl_cons]
    have hax : a ≤ x := hx x (List.mem_cons_self _ _)
    have hmax : max a x = x := max_eq_right hax
    rw [hmax]
    exact ih x (List.Sorted.of_cons hs)
      (fun y hy => (List.sorted_cons.mp hs).1 y hy)

theorem libLayout_fst_eq_spec (segs : List Segment) :
    (libLayout segs).1 = required_alignment_spec segs := by
  unfold libLayout required_alignment_spec
  rw [libLayout_decomp segs 0 0]
  exact foldl_ifmax_eq_max _ 0

theorem libLayout_snd_eq_last (segs : List Segment) :
    (libLayout segs).2 = last_load_span segs := by
  unfold libLayout last_load_span
  rw [libLayout_decomp segs 0 0]
  exact foldl_overwrite_eq_getLastD _ 0

theorem libLayout_no_load (segs : List Segment)
    (h : ∀ s ∈ segs, s.p_type ≠ SegmentType.PT_LOAD) :
    libLayout segs = (0, 0) := by
  unfold libLayout
  rw [libLayout_decomp segs 0 0]
  have hnil : segs.filter isLoad = [] := by
    rw [List.filter_eq_nil_iff]
    intro a ha
    simp [isLoad]
    exact h a ha
  rw [hnil]
  rfl


theorem interpScan_foldl_none_iff : ∀ (l : List Segment) (acc : Option String),
    l.foldl
      (fun acc seg =>
        if seg.p_type = SegmentType.PT_INTERP then some seg.interp_name
        else acc)
      acc = none
    ↔ (acc = none ∧ ∀ s ∈ l, s.p_type ≠ SegmentType.PT_INTERP) := by
  intro l
  induction l with
  | nil => intro acc; simp
  | cons s t ih =>
    intro acc
    rw [List.foldl_cons]
    by_cases hl : s.p_type = SegmentType.PT_INTERP
    · rw [if_pos hl, ih]
      simp [hl]
    · rw [if_neg hl, ih]
      simp [hl]

theorem interpScan_eq_none_iff (segs : List Segment) :
    interpScan segs = none ↔
      ∀ s ∈ segs, s.p_type ≠ SegmentType.PT_INTERP := by
  rw [interpScan, interpScan_foldl_none_iff]
  simp

/-! ### Claim theorems -/

/-- C1: whenever the compactor (`prelink_libs`) succeeds — for any set
of libraries, any list of existing executable mappings (with the data
model's non-negative sizes), and any ceiling large enough for the run
to return a placement — each library is assigned a base address whose
range `[base, base + total_size)` is pairwise non-overlapping with the
other assigned ranges, non-overlapping with every existing mapping of
the executable, and whose base is a multiple of that library's
required alignment. -/
theorem prelink_libs_plan_invariants
    (libs : List (List Segment)) (existing_mappings : List (Int × Int))
    (ceiling : Int) (plan : List (Int × Int))
    (hm : ∀ m ∈ existing_mappings, 0 ≤ m.2)
    (hsz : ∀ lib ∈ libs, 0 ≤ (libLayout lib).2)
    (h : prelink_libs libs existing_mappings ceiling = Except.ok plan) :
    List.Forall₂ (fun lib p =>
      p.2 = (libLayout lib).2 ∧ p.1 % (libLayout lib).1 = 0) libs plan
    ∧ (∀ p ∈ plan, ∀ m ∈ existing_mappings,
        p.1 + p.2 ≤ m.1 ∨ m.1 + m.2 ≤ p.1)
    ∧ plan.Pairwise (fun p q => p.1 + p.2 ≤ q.1 ∨ q.1 + q.2 ≤ p.1) := by
  obtain ⟨hF, hB, hP⟩ :=
    prelink_ok_facts libs existing_mappings ceiling plan h hm hsz
  refine ⟨hF, ?_, hP.imp (fun hpq => Or.inr hpq)⟩
  intro p hp m hmm
  have hov := (hB p hp).2.2
  have hfalse := (get_overlap_eq_none_iff (p.1, p.2) existing_mappings).mp hov m hmm
  exact disjoint_of_overlapsB_false (p.1, p.2) m hfalse

/-- Witness for C1: the spec's end-to-end scenario — `libA`
(size `0x2000`) and `libB` (size `0x3000`), executable mapping
`[0x400000, 0x401000)`, ceiling `0xffffffff`; the committed plan is
`[(0xffffd000, 0x2000), (0xffffa000, 0x3000)]`. -/
theorem prelink_libs_plan_invariants_witness :
    List.Forall₂ (fun lib p =>
      p.2 = (libLayout lib).2 ∧ p.1 % (libLayout lib).1 = 0)
      [libA, libB] [(0xffffd000, 0x2000), (0xffffa000, 0x3000)]
    ∧ (∀ p ∈ [((0xffffd000 : Int), (0x2000 : Int)), (0xffffa000, 0x3000)],
        ∀ m ∈ [((0x400000 : Int), (0x1000 : Int))],
        p.1 + p.2 ≤ m.1 ∨ m.1 + m.2 ≤ p.1)
    ∧ List.Pairwise (fun p q => p.1 + p.2 ≤ q.1 ∨ q.1 + q.2 ≤ p.1)
        [((0xffffd000 : Int), (0x2000 : Int)), (0xffffa000, 0x3000)] :=
  prelink_libs_plan_invariants [libA, libB] [(0x400000, 0x1000)] 0xffffffff
    [(0xffffd000, 0x2000), (0xffffa000, 0x3000)]
    (by decide) (by decide) (by rfl)

/-- C2 (counterexample): the layout scan does *not* compute
`total_size` as the maximum `(vaddr + memsz)` over the loadable
segments — it overwrites `size` with each loadable segment's span, so
for `c2segs` (spans `3` then `2` in file order) it returns `2` while
the maximum is `3`. -/
theorem libLayout_total_size_not_max :
    (libLayout c2segs).2 = 2 ∧ total_size_spec c2segs = 3
    ∧ (libLayout c2segs).2 ≠ total_size_spec c2segs := by
  refine ⟨by decide, by decide, by decide⟩

/-- C2 (amended): `required_alignment` is, as claimed, the maximum
segment alignment over the loadable segments; `total_size`, however,
is the `(vaddr + memsz)` of the *last* loadable segment (0 when there
is none).  In particular, whenever the loadable segments' spans are
nondecreasing in file order (as they are in well-formed ELF files) and
non-negative, this last span coincides with the claimed maximum — a
sufficient condition only; other span orders may also happen to end on
the maximum. -/
theorem libLayout_amended (segs : List Segment) :
    (libLayout segs).1 = required_alignment_spec segs
    ∧ (libLayout segs).2 = last_load_span segs
    ∧ (((segs.filter isLoad).map segSpan).Sorted (· ≤ ·) →
       (∀ x ∈ (segs.filter isLoad).map segSpan, 0 ≤ x) →
       (libLayout segs).2 = total_size_spec segs) := by
  refine ⟨libLayout_fst_eq_spec segs, libLayout_snd_eq_last segs, ?_⟩
  intro hsort hpos
  rw [libLayout_snd_eq_last]
  unfold last_load_span total_size_spec
  exact sorted_getLastD_eq_foldl_max _ 0 hsort hpos

/-- Witness for C2 (amended): on `c2sortedSegs`, whose loadable spans
`[1, 3]` are nondecreasing, the overwrite does equal the maximum. -/
theorem libLayout_amended_witness :
    (libLayout c2sortedSegs).2 = total_size_spec c2sortedSegs :=
  (libLayout_amended c2sortedSegs).2.2 (by decide) (by decide)

/-- C3 (counterexample): the candidate range is *not* checked against
the union of the existing mappings and the already-committed ranges —
the code passes only `existing_mappings` to `get_overlap` — and for a
zero-size committed range the difference is observable: compacting the
zero-size `zeroLib` and then `tinyLib` below ceiling `112` succeeds
with plan `[(112, 0), (96, 16)]`, while the spec's union-checking
algorithm `prelink_libs_spec` keeps reporting an overlap of the
candidate `(96, 16)` with the committed `(112, 0)` and never
terminates (modelled as `searchDiverged`). -/
theorem prelink_libs_union_check_mismatch :
    prelink_libs [zeroLib, tinyLib] [] 112
      = Except.ok [(112, 0), (96, 16)]
    ∧ prelink_libs_spec [zeroLib, tinyLib] [] [] 112
      = Except.error PrelinkError.searchDiverged
    ∧ prelink_libs [zeroLib, tinyLib] [] 112
      ≠ prelink_libs_spec [zeroLib, tinyLib] [] [] 112 := by
  refine ⟨rfl, rfl, ?_⟩
  intro h
  rw [show prelink_libs [zeroLib, tinyLib] [] 112
      = Except.ok [(112, 0), (96, 16)] from rfl,
    show prelink_libs_spec [zeroLib, tinyLib] [] [] 112
      = Except.error PrelinkError.searchDiverged from rfl] at h
  simp at h

/-- C3 (amended): the overlap check of `prelink_libs` consults only
the executable's existing mappings, never the committed plan; for
existing mappings and libraries of *positive* sizes this is provably
equivalent to the spec's check against the union of the existing
mappings and every range already committed — each committed range lies
at or above the running cursor while every candidate lies below it, so
the verdict, and hence the entire run, equals that of the
union-checking algorithm `prelink_libs_spec`.  (For zero-size ranges
the two checks can genuinely differ, see the counterexample.) -/
theorem prelink_libs_checks_committed_union
    (libs : List (List Segment)) (existing_mappings : List (Int × Int))
    (ceiling : Int)
    (hm : ∀ m ∈ existing_mappings, 0 < m.2)
    (hsz : ∀ lib ∈ libs, 0 < (libLayout lib).2) :
    prelink_libs libs existing_mappings ceiling
      = prelink_libs_spec libs existing_mappings [] ceiling :=
  (prelink_agrees_aux existing_mappings hm libs [] ceiling hsz
    (by simp)).symm

/-- Witness for C3: the end-to-end scenario run is identical under
both overlap-checking disciplines. -/
theorem prelink_libs_checks_committed_union_witness :
    prelink_libs [libA, libB] [(0x400000, 0x1000)] 0xffffffff
      = prelink_libs_spec [libA, libB] [(0x400000, 0x1000)] [] 0xffffffff :=
  prelink_libs_checks_committed_union [libA, libB] [(0x400000, 0x1000)]
    0xffffffff (by decide) (by decide)

/-- C4 (counterexample): the three-way containment test of
`get_overlap` is *not* equivalent to the half-open intersection test
`start < other_end ∧ end > other_start` for every candidate mapping:
the zero-size candidate `(0, 0)` is reported as overlapping the
occupied range `(0, 10)` although the half-open test denies an
intersection. -/
theorem get_overlap_zero_size_mismatch :
    get_overlap (0, 0) [((0 : Int), (10 : Int))] = some (0, 10)
    ∧ ¬((0 : Int) < 0 + 10 ∧ (0 : Int) + 0 > 0) := by
  exact ⟨rfl, by decide⟩

/-- C4 (amended): for candidate and occupied mappings of positive
size, `get_overlap` reports an overlap exactly when some occupied
range intersects the candidate under the half-open test
`start < other_end ∧ end > other_start`. -/
theorem get_overlap_iff_half_open (s sz : Int) (occ : List (Int × Int))
    (hsz : 0 < sz) (hocc : ∀ m ∈ occ, 0 < m.2) :
    (get_overlap (s, sz) occ).isSome
      ↔ ∃ m ∈ occ, s < m.1 + m.2 ∧ s + sz > m.1 := by
  constructor
  · intro h
    obtain ⟨m, hm⟩ := Option.isSome_iff_exists.mp h
    have hmem := get_overlap_some_mem _ m occ hm
    refine ⟨m, hmem.1, ?_⟩
    have hm2 := hocc m hmem.1
    have := hmem.2
    rw [overlapsB_iff] at this
    simp only at this
    omega
  · rintro ⟨m, hmm, h1, h2⟩
    cases hov : get_overlap (s, sz) occ with
    | some r => simp
    | none =>
      have hfalse := (get_overlap_eq_none_iff (s, sz) occ).mp hov m hmm
      have htrue := overlapsB_of_intersect (s, sz) m h1 (by omega)
      rw [htrue] at hfalse
      cases hfalse

/-- Witness for C4 (amended): candidate `(0, 10)` against the occupied
list `[(5, 10)]`. -/
theorem get_overlap_iff_half_open_witness :
    (get_overlap (0, 10) [((5 : Int), (10 : Int))]).isSome :=
  (get_overlap_iff_half_open 0 10 [(5, 10)] (by decide) (by decide)).mpr
    ⟨(5, 10), by simp, by decide, by decide⟩

/-- C5: a negative chosen base address is never returned — every base
in a successfully returned plan is non-negative — and in particular
the scenario producing candidate start `-0x10` (a `0x10`-byte library
compacted below ceiling `0`) fails with the invalid-address error
carrying `-0x10`, rather than wrapping or truncating. -/
theorem prelink_libs_negative_base_fails :
    (∀ (libs : List (List Segment)) (existing_mappings : List (Int × Int))
       (ceiling : Int) (plan : List (Int × Int)),
       prelink_libs libs existing_mappings ceiling = Except.ok plan →
       ∀ p ∈ plan, 0 ≤ p.1)
    ∧ prelink_libs [tinyLib] [] 0
        = Except.error (PrelinkError.invalidAddressError (-0x10)) := by
  constructor
  · intro libs
    induction libs with
    | nil =>
      intro e c plan h p hp
      rw [prelink_libs] at h
      simp only [Except.ok.injEq] at h
      subst h
      simp at hp
    | cons segs rest ih =>
      intro e c plan h p hp
      rw [prelink_libs] at h
      cases hstep : prelinkStep e segs c with
      | error err => rw [hstep] at h; simp at h
      | ok slot =>
        rw [hstep] at h
        have h2 : (match prelink_libs rest e slot.1 with
          | Except.error err => Except.error err
          | Except.ok tail => Except.ok (slot :: tail)) = Except.ok plan := h
        cases hrest : prelink_libs rest e slot.1 with
        | error err => rw [hrest] at h2; simp at h2
        | ok plan' =>
          rw [hrest] at h2
          simp only [Except.ok.injEq] at h2
          subst h2
          rcases List.mem_cons.mp hp with rfl | hp'
          · exact (prelinkStep_ok_elim e segs c p hstep).2.2.1
          · exact ih e slot.1 plan' hrest p hp'
  · rfl

/-- Witness for C5: a successful run (`tinyLib` below ceiling `0x100`)
commits the non-negative base `0xf0`. -/
theorem prelink_libs_negative_base_fails_witness :
    (0 : Int) ≤ ((0xf0 : Int), (0x10 : Int)).1 :=
  prelink_libs_negative_base_fails.1 [tinyLib] [] 0x100 [(0xf0, 0x10)]
    (by rfl) (0xf0, 0x10) (by simp)

/-- C6: across the processing order of a successful compaction run,
every committed range lies entirely at or below the starting ceiling,
and after a library is committed at `candidateStart` (which becomes
the cursor carried to the next library) every later library's range
`[base, base + size)` satisfies `base + size ≤ candidateStart`. -/
theorem prelink_libs_monotone_descent
    (libs : List (List Segment)) (existing_mappings : List (Int × Int))
    (ceiling : Int) (plan : List (Int × Int))
    (hm : ∀ m ∈ existing_mappings, 0 ≤ m.2)
    (hsz : ∀ lib ∈ libs, 0 ≤ (libLayout lib).2)
    (h : prelink_libs libs existing_mappings ceiling = Except.ok plan) :
    (∀ p ∈ plan, p.1 + p.2 ≤ ceiling)
    ∧ plan.Pairwise (fun p q => q.1 + q.2 ≤ p.1) := by
  obtain ⟨_, hB, hP⟩ :=
    prelink_ok_facts libs existing_mappings ceiling plan h hm hsz
  exact ⟨fun p hp => (hB p hp).1, hP⟩

/-- Witness for C6: the end-to-end scenario plan descends from the
ceiling. -/
theorem prelink_libs_monotone_descent_witness :
    (∀ p ∈ [((0xffffd000 : Int), (0x2000 : Int)), (0xffffa000, 0x3000)],
        p.1 + p.2 ≤ (0xffffffff : Int))
    ∧ List.Pairwise (fun p q => q.1 + q.2 ≤ p.1)
        [((0xffffd000 : Int), (0x2000 : Int)), (0xffffa000, 0x3000)] :=
  prelink_libs_monotone_descent [libA, libB] [(0x400000, 0x1000)] 0xffffffff
    [(0xffffd000, 0x2000), (0xffffa000, 0x3000)]
    (by decide) (by decide) (by rfl)

/-- C9: for a library of positive size and alignment and occupied
mappings of positive sizes, the retry-on-overlap loop terminates
within `existing_mappings.length + 1` iterations: each retry moves the
candidate strictly below the start of the overlapping mapping, which
can then never overlap again, so fuel one larger than the number of
occupied ranges always suffices to find a slot. -/
theorem findSlot_terminating
    (existing_mappings : List (Int × Int)) (align size baseaddr : Int)
    (hal : 0 < align) (hs : 0 < size)
    (hm : ∀ m ∈ existing_mappings, 0 < m.2) :
    ∃ r, findSlot (existing_mappings.length + 1) existing_mappings
        align size baseaddr = some r := by
  have hbound := List.length_filter_le
    (fun x : Int × Int => decide (x.1 < baseaddr + size)) existing_mappings
  exact findSlot_isSome (existing_mappings.length + 1) existing_mappings
    align size baseaddr (by omega) hal hs hm

/-- Witness for C9: one occupied mapping, so fuel `2`. -/
theorem findSlot_terminating_witness :
    ∃ r, findSlot ([((0x400000 : Int), (0x1000 : Int))].length + 1)
      [((0x400000 : Int), (0x1000 : Int))] 0x1000 0x2000 0x401500 = some r :=
  findSlot_terminating [(0x400000, 0x1000)] 0x1000 0x2000 0x401500
    (by decide) (by decide) (by decide)

/-- C10: a library with no loadable segment leaves the accumulated
alignment at `0`, and the compaction step then crashes with the
(modelled) `ZeroDivisionError` of `baseaddr % align` instead of any
defined compaction error; conversely, whenever the accumulated
alignment is positive, the step never raises that division error. -/
theorem prelink_libs_no_load_zero_div :
    (∀ (segs : List Segment),
      (∀ s ∈ segs, s.p_type ≠ SegmentType.PT_LOAD) →
      (libLayout segs).1 = 0 ∧
      ∀ (existing_mappings : List (Int × Int)) (baseaddr : Int),
        prelinkStep existing_mappings segs baseaddr
          = Except.error PrelinkError.zeroDivisionError)
    ∧ (∀ (existing_mappings : List (Int × Int)) (segs : List Segment)
        (baseaddr : Int), 0 < (libLayout segs).1 →
        prelinkStep existing_mappings segs baseaddr
          ≠ Except.error PrelinkError.zeroDivisionError) := by
  constructor
  · intro segs hns
    have h0 : libLayout segs = (0, 0) := libLayout_no_load segs hns
    refine ⟨by rw [h0], ?_⟩
    intro e b
    rw [prelinkStep, h0]
    simp
  · intro e segs b hal
    rw [prelinkStep, if_neg (by omega)]
    cases hov : findSlot (e.length + 1) e (libLayout segs).1
        (libLayout segs).2 (b - (libLayout segs).2) with
    | none => simp
    | some r =>
      by_cases hneg : r < 0
      · simp [hneg]
      · simp [hneg]

/-- Witness for C10: the empty segment list (no loadable segment)
crashes the step; `tinyLib` (alignment `0x10`) never does. -/
theorem prelink_libs_no_load_zero_div_witness :
    (libLayout ([] : List Segment)).1 = 0
    ∧ prelinkStep [] ([] : List Segment) 0
        = Except.error PrelinkError.zeroDivisionError
    ∧ prelinkStep [] tinyLib 0
        ≠ Except.error PrelinkError.zeroDivisionError :=
  ⟨(prelink_libs_no_load_zero_div.1 [] (by simp)).1,
   (prelink_libs_no_load_zero_div.1 [] (by simp)).2 [] 0,
   prelink_libs_no_load_zero_div.2 [] tinyLib 0 (by decide)⟩

/-- C7: whenever the introspection output contains an
unresolved-dependency line (`... => not found`), and it is the first
such line, dependency resolution fails immediately with an error
naming that library — for *every* accumulator of already-parsed
resolved paths, so no partial dependency set (not even the lines
parsed before the unresolved one) is ever returned. -/
theorem get_library_deps_unresolved_fatal
    (pre post : List String) (l : String) (name : String)
    (deps : List String)
    (hl : ldd_not_found_match l = some name)
    (hpre : ∀ x ∈ pre, ldd_not_found_match x = none) :
    get_library_deps_lines (pre ++ l :: post) deps
      = Except.error (DepsError.unresolvedDependencyError name) := by
  induction pre generalizing deps with
  | nil =>
    rw [List.nil_append, get_library_deps_lines, hl]
  | cons x xs ih =>
    rw [List.cons_append, get_library_deps_lines,
      hpre x (List.mem_cons_self _ _)]
    cases hr : ldd_resolved_match x with
    | some p =>
      exact ih (p :: deps) (fun y hy => hpre y (List.mem_cons_of_mem _ hy))
    | none =>
      exact ih deps (fun y hy => hpre y (List.mem_cons_of_mem _ hy))

/-- Witness for C7: output with a resolved line, then
`libfoo.so => not found`, then another resolved line — resolution
fails with the stripped name `libfoo.so`. -/
theorem get_library_deps_unresolved_fatal_witness :
    get_library_deps_lines
      ["\tlibbar.so => /usr/lib/libbar.so (0x00007f)",
       "\tlibfoo.so => not found",
       "\tlibc.so.6 => /lib/libc.so.6 (0x7f)"] []
      = Except.error (DepsError.unresolvedDependencyError "libfoo.so") :=
  get_library_deps_unresolved_fatal
    ["\tlibbar.so => /usr/lib/libbar.so (0x00007f)"]
    ["\tlibc.so.6 => /lib/libc.so.6 (0x7f)"]
    "\tlibfoo.so => not found" "libfoo.so" []
    (by decide) (by decide)

/-- C8 (counterexample): for a shared library — a file with loadable
segments but no interpreter program-header entry — `get_binary_info`
does *not* return `interpreter_path = None` without error: it fails
with the missing-interpreter error, exactly as for an executable. -/
theorem get_binary_info_library_error :
    get_binary_info [⟨SegmentType.PT_LOAD, 0, 0x1000, 0x1000, ""⟩]
      = Except.error BinInfoError.missingInterpreterError := rfl

/-- C8 (amended): `get_binary_info` fails with the missing-interpreter
error exactly when the file — executable or shared library alike — has
no interpreter program-header entry; it never returns a `None`
interpreter path. -/
theorem get_binary_info_missing_interp_iff (segs : List Segment) :
    get_binary_info segs = Except.error BinInfoError.missingInterpreterError
    ↔ ∀ s ∈ segs, s.p_type ≠ SegmentType.PT_INTERP := by
  constructor
  · intro h
    cases hscan : interpScan segs with
    | none => exact (interpScan_eq_none_iff segs).mp hscan
    | some i =>
      rw [get_binary_info, hscan] at h
      simp at h
  · intro hni
    have hscan : interpScan segs = none := (interpScan_eq_none_iff segs).mpr hni
    rw [get_binary_info, hscan]

/-- Witness for C8 (amended): a file with only a non-loadable,
non-interpreter segment triggers the missing-interpreter error. -/
theorem get_binary_info_missing_interp_iff_witness :
    get_binary_info [⟨SegmentType.PT_OTHER, 0, 0, 0, ""⟩]
      = Except.error BinInfoError.missingInterpreterError :=
  (get_binary_info_missing_interp_iff
    [⟨SegmentType.PT_OTHER, 0, 0, 0, ""⟩]).mpr (by decide)
